import Mathlib

/-!
# Verification of streamsnapper's stream-selection and chunked-download core

This file gives a shallow embedding, in Lean 4, of the algorithmic core of the
streamsnapper repository:

* the chunk planner and connection-count table
  (`src/streamsnapper/downloader.py`, `Downloader._calculate_connections` and
  `Downloader._get_chunk_ranges`),
* the request-header construction (`Downloader.__init__`) and the per-chunk
  `Range` header rule (`Downloader._download_chunk`),
* the download driver and its error propagation (`Downloader.download`),
* the metadata field resolver (`src/src/streamsnapper/utils.py`, `get_value`),
* the video and audio stream rankers
  (`src/src/streamsnapper/core.py`, `YouTube.analyze_video_streams` and
  `YouTube.analyze_audio_streams`).

Conventions used throughout:

* Python `None` is modelled by `Option.none`; machine/JSON integers by `Nat`
  (all integer metadata handled here is non-negative) and Python floats by `ℚ`
  (exact rationals; none of the verified properties depends on rounding).
* Code that can raise is modelled with `Except`: `.error` is a raised
  exception, `.ok` a normal return.
* Python dictionaries used as string-keyed header maps are modelled as
  insertion-ordered association lists.
-/

/-! ## Generic helpers (Python-behaviour building blocks) -/

instance exceptDecidableEq {ε α : Type} [DecidableEq ε] [DecidableEq α] :
    DecidableEq (Except ε α) := fun x y =>
  match x, y with
  | .error a, .error b =>
    if h : a = b then isTrue (congrArg Except.error h)
    else isFalse (fun hc => h (by injection hc))
  | .ok a, .ok b =>
    if h : a = b then isTrue (congrArg Except.ok h)
    else isFalse (fun hc => h (by injection hc))
  | .error _, .ok _ => isFalse (fun hc => Except.noConfusion hc)
  | .ok _, .error _ => isFalse (fun hc => Except.noConfusion hc)

/-- First-seen-order deduplication, as performed by Python's
`list(dict.fromkeys(...))`. -/
def firstSeenDedup {α : Type} [DecidableEq α] : List α → List α → List α
  | _, [] => []
  | seen, x :: xs =>
    if x ∈ seen then firstSeenDedup seen xs else x :: firstSeenDedup (x :: seen) xs

/-- Does the character list `hay` start with `needle`? -/
def startsWithList : List Char → List Char → Bool
  | [], _ => true
  | _ :: _, [] => false
  | a :: as, b :: bs => a == b && startsWithList as bs

/-- Python's substring test `needle in hay`, on character lists. -/
def containsSub (needle : List Char) : List Char → Bool
  | [] => needle.isEmpty
  | b :: bs => startsWithList needle (b :: bs) || containsSub needle bs

/-- Python's `str.islower()` for ASCII text: all cased characters are lower
case and at least one cased character exists. -/
def pyIsLower (s : String) : Bool :=
  s.toList.all (fun c => !c.isUpper) && s.toList.any (fun c => c.isAlpha)

/-- Python's `str.split(sep)` for a one-character separator, on character
lists: `"" → [""]`, adjacent separators yield empty groups. -/
def pySplitChar (sep : Char) : List Char → List (List Char)
  | [] => [[]]
  | c :: rest =>
    match pySplitChar sep rest with
    | [] => [[]]
    | g :: gs => if c = sep then [] :: g :: gs else (c :: g) :: gs

/-- Python's `str.split(".", 1)`: the head part and, when a dot occurs, the
(re-joined) remainder. -/
def pySplitDot1 (c : String) : String × Option String :=
  match pySplitChar '.' c.toList with
  | [] => (c, none)
  | [x] => (String.mk x, none)
  | x :: rest => (String.mk x, some (String.mk (List.intercalate ['.'] rest)))

/-- Python's `str.lower()` (ASCII model). -/
def pyLower (s : String) : String := String.mk (s.toList.map Char.toLower)

/-- Python's `int(s)` restricted to plain decimal digit strings (the only
shape it is applied to here); anything else is a conversion failure. -/
def pyParseNat (s : String) : Option Nat :=
  if !s.toList.isEmpty && s.toList.all Char.isDigit then
    some (s.toList.foldl (fun n c => n * 10 + (c.toNat - 48)) 0)
  else none

/-! ## Chunk planner (`Downloader._calculate_connections`, `_get_chunk_ranges`)

`maxConnections = none` models the `'auto'` literal; `some n` an explicit
caller-supplied connection count. -/

/-- `Downloader._calculate_connections` (downloader.py:60-96): size-tiered
connection table, bypassed when the caller forces an explicit count. -/
def calculate_connections (maxConnections : Option Nat) (fileSize : Nat) : Nat :=
  match maxConnections with
  | some n => n
  | none =>
    if fileSize < 1024 * 1024 then 1
    else if fileSize ≤ 5 * 1024 * 1024 then 4
    else if fileSize ≤ 50 * 1024 * 1024 then 8
    else if fileSize ≤ 200 * 1024 * 1024 then 16
    else if fileSize ≤ 400 * 1024 * 1024 then 24
    else 32

/-- `math.ceil(a / b)` for positive integers (exact ceiling division; the
Python code computes it through float division, which is exact at the
magnitudes involved). -/
def cdiv (a b : Nat) : Nat := (a + b - 1) / b

/-- The loop `for i in range(0, total_size, chunk_size)` of
`_get_chunk_ranges` (downloader.py:161-163), emitting
`(i, min(i + chunk_size - 1, total_size - 1))` per iteration.  The loop runs
`ceil(total_size / chunk_size) ≤ total_size` times, so structural recursion on
a fuel argument initialised to `total_size` reproduces it exactly (the guard
`0 < cs` mirrors Python's requirement of a positive `range` step). -/
def chunkRangesGo (S cs : Nat) : Nat → Nat → List (Nat × Nat)
  | 0, _ => []
  | fuel + 1, i =>
    if 0 < cs ∧ i < S then
      (i, min (i + cs - 1) (S - 1)) :: chunkRangesGo S cs fuel (i + cs)
    else []

/-- `Downloader._get_chunk_ranges` (downloader.py:139-165). -/
def get_chunk_ranges (maxConnections : Option Nat) (totalSize : Nat) : List (Nat × Nat) :=
  if totalSize = 0 then [(0, 0)]
  else
    chunkRangesGo totalSize (cdiv totalSize (calculate_connections maxConnections totalSize))
      totalSize 0

/-- `rs` is a gapless, overlap-free chain of inclusive byte ranges covering
exactly `[i, S)`. -/
def coversFrom : Nat → Nat → List (Nat × Nat) → Prop
  | i, s, [] => i = s
  | i, s, r :: rest => r.1 = i ∧ r.1 ≤ r.2 ∧ r.2 < s ∧ coversFrom (r.2 + 1) s rest

/-- All the partition facts claimed for a chunk plan of a size-`S` resource:
first range starts at byte `0`, each later range starts one byte after the
previous inclusive end, every range is well-formed and stays below `S`, the
last range ends at `S - 1`, ranges are pairwise disjoint, and every byte of
`[0, S)` is covered. -/
def ChunkPlanOk (S : Nat) (rs : List (Nat × Nat)) : Prop :=
  rs.head?.map Prod.fst = some 0
  ∧ List.Chain' (fun a b => b.1 = a.2 + 1) rs
  ∧ (∀ r ∈ rs, r.1 ≤ r.2 ∧ r.2 < S)
  ∧ rs.getLast?.map Prod.snd = some (S - 1)
  ∧ List.Pairwise (fun a b => a.2 < b.1) rs
  ∧ (∀ k, k < S → ∃ r ∈ rs, r.1 ≤ k ∧ k ≤ r.2)

@[simp] lemma coversFrom_nil {i s : Nat} : coversFrom i s [] ↔ i = s := Iff.rfl

@[simp] lemma coversFrom_cons {i s : Nat} {r : Nat × Nat} {rest : List (Nat × Nat)} :
    coversFrom i s (r :: rest)
      ↔ r.1 = i ∧ r.1 ≤ r.2 ∧ r.2 < s ∧ coversFrom (r.2 + 1) s rest := Iff.rfl

lemma coversFrom_bounds {S : Nat} :
    ∀ rs i, coversFrom i S rs → ∀ r ∈ rs, r.1 ≤ r.2 ∧ r.2 < S := by
  intro rs
  induction rs with
  | nil => intro i _ r hr; cases hr
  | cons a rest ih =>
    intro i h r hr
    rw [coversFrom_cons] at h
    rcases List.mem_cons.mp hr with hr | hr
    · subst hr; exact ⟨h.2.1, h.2.2.1⟩
    · exact ih (a.2 + 1) h.2.2.2 r hr

lemma coversFrom_chain {S : Nat} :
    ∀ rs i, coversFrom i S rs → List.Chain' (fun a b => b.1 = a.2 + 1) rs := by
  intro rs
  induction rs with
  | nil => intro i _; exact List.chain'_nil
  | cons a rest ih =>
    intro i h
    rw [coversFrom_cons] at h
    cases rest with
    | nil => simp
    | cons b t =>
      rw [List.chain'_cons]
      have hb := (coversFrom_cons.mp h.2.2.2).1
      exact ⟨hb, ih (a.2 + 1) h.2.2.2⟩

lemma coversFrom_last {S : Nat} :
    ∀ rs i r, coversFrom i S rs → rs.getLast? = some r → r.2 = S - 1 := by
  intro rs
  induction rs with
  | nil => intro i r _ hlast; cases hlast
  | cons a rest ih =>
    intro i r h hlast
    rw [coversFrom_cons] at h
    cases rest with
    | nil =>
      simp only [List.getLast?_singleton, Option.some.injEq] at hlast
      subst hlast
      have h1 : a.2 < S := h.2.2.1
      have h2 : a.2 + 1 = S := coversFrom_nil.mp h.2.2.2
      omega
    | cons b t =>
      rw [List.getLast?_cons_cons] at hlast
      exact ih (a.2 + 1) r h.2.2.2 hlast

lemma coversFrom_ge {S : Nat} :
    ∀ rs i, coversFrom i S rs → ∀ r ∈ rs, i ≤ r.1 := by
  intro rs
  induction rs with
  | nil => intro i _ r hr; cases hr
  | cons a rest ih =>
    intro i h r hr
    rw [coversFrom_cons] at h
    rcases List.mem_cons.mp hr with hr | hr
    · subst hr; exact Nat.le_of_eq h.1.symm
    · have := ih (a.2 + 1) h.2.2.2 r hr
      have ha : a.1 = i := h.1
      have hab : a.1 ≤ a.2 := h.2.1
      omega

lemma coversFrom_pairwise {S : Nat} :
    ∀ rs i, coversFrom i S rs → List.Pairwise (fun a b => a.2 < b.1) rs := by
  intro rs
  induction rs with
  | nil => intro i _; exact List.Pairwise.nil
  | cons a rest ih =>
    intro i h
    rw [coversFrom_cons] at h
    refine List.pairwise_cons.mpr ⟨?_, ih (a.2 + 1) h.2.2.2⟩
    intro r hr
    have := coversFrom_ge rest (a.2 + 1) h.2.2.2 r hr
    omega

lemma coversFrom_covers {S : Nat} :
    ∀ rs i, coversFrom i S rs → ∀ k, i ≤ k → k < S → ∃ r ∈ rs, r.1 ≤ k ∧ k ≤ r.2 := by
  intro rs
  induction rs with
  | nil =>
    intro i h k hik hkS
    have hiS : i = S := coversFrom_nil.mp h
    omega
  | cons a rest ih =>
    intro i h k hik hkS
    rw [coversFrom_cons] at h
    by_cases hk : k ≤ a.2
    · have h1 : a.1 = i := h.1
      exact ⟨a, List.mem_cons_self a rest, by omega, hk⟩
    · have : a.2 + 1 ≤ k := by omega
      obtain ⟨r, hr, h1, h2⟩ := ih (a.2 + 1) h.2.2.2 k this hkS
      exact ⟨r, List.mem_cons_of_mem a hr, h1, h2⟩

lemma coversFrom_ne_nil {S : Nat} {rs : List (Nat × Nat)} (h : coversFrom 0 S rs)
    (hS : 1 ≤ S) : rs ≠ [] := by
  intro hnil
  subst hnil
  have : (0 : Nat) = S := coversFrom_nil.mp h
  omega

lemma chunkRangesGo_stop {S cs : Nat} (fuel j : Nat) (h : ¬ j < S) :
    chunkRangesGo S cs fuel j = [] := by
  cases fuel with
  | zero => rfl
  | succ n =>
    simp only [chunkRangesGo]
    rw [if_neg]
    intro hc
    exact h hc.2

lemma chunkRangesGo_covers (S cs : Nat) (hcs : 0 < cs) :
    ∀ fuel i, i < S → S - i ≤ fuel → coversFrom i S (chunkRangesGo S cs fuel i) := by
  intro fuel
  induction fuel with
  | zero => intro i hi hfuel; omega
  | succ n ih =>
    intro i hi hfuel
    simp only [chunkRangesGo]
    rw [if_pos ⟨hcs, hi⟩]
    refine ⟨rfl, by omega, by omega, ?_⟩
    by_cases hnext : i + cs < S
    · have hmin : min (i + cs - 1) (S - 1) = i + cs - 1 := by omega
      rw [hmin]
      have : i + cs - 1 + 1 = i + cs := by omega
      rw [this]
      exact ih (i + cs) hnext (by omega)
    · have hmin : min (i + cs - 1) (S - 1) = S - 1 := by omega
      rw [hmin, chunkRangesGo_stop n (i + cs) hnext]
      show S - 1 + 1 = S
      omega

lemma calculate_connections_pos {mc : Option Nat} (S : Nat)
    (hmc : ∀ n, mc = some n → 1 ≤ n) : 1 ≤ calculate_connections mc S := by
  cases mc with
  | some n => exact hmc n rfl
  | none =>
    simp only [calculate_connections]
    split <;> try omega
    split <;> try omega
    split <;> try omega
    split <;> try omega
    split <;> omega

lemma cdiv_pos {a b : Nat} (ha : 1 ≤ a) (hb : 1 ≤ b) : 1 ≤ cdiv a b := by
  unfold cdiv
  rw [Nat.le_div_iff_mul_le hb]
  omega

/-- C1: for every total size `S ≥ 0` and every connection count `N ≥ 1`
supplied to the planner (`'auto'`, modelled by `none`, always yields `N ≥ 1`),
the ranges returned by `Downloader._get_chunk_ranges` partition `[0, S)`
exactly — first range starts at byte 0, each subsequent range starts one byte
after the previous inclusive end, ranges are disjoint, the last range ends at
`S - 1`, every byte below `S` is covered — and for `S = 0` the result is
exactly the sentinel `[(0, 0)]`. -/
theorem chunk_ranges_partition (S : Nat) (mc : Option Nat)
    (hmc : ∀ n, mc = some n → 1 ≤ n) :
    (S = 0 → get_chunk_ranges mc S = [(0, 0)])
    ∧ (1 ≤ S → ChunkPlanOk S (get_chunk_ranges mc S)) := by
  constructor
  · intro h
    subst h
    rfl
  · intro hS
    have hconn := calculate_connections_pos S hmc
    have hcs : 1 ≤ cdiv S (calculate_connections mc S) := cdiv_pos hS hconn
    have hrs : get_chunk_ranges mc S
        = chunkRangesGo S (cdiv S (calculate_connections mc S)) S 0 := by
      unfold get_chunk_ranges
      rw [if_neg (by omega)]
    have hcov : coversFrom 0 S (get_chunk_ranges mc S) := by
      rw [hrs]
      exact chunkRangesGo_covers S (cdiv S (calculate_connections mc S)) hcs S 0
        (by omega) (by omega)
    have hne : get_chunk_ranges mc S ≠ [] := coversFrom_ne_nil hcov hS
    refine ⟨?_, coversFrom_chain _ 0 hcov, coversFrom_bounds _ 0 hcov, ?_,
      coversFrom_pairwise _ 0 hcov, fun k hk => coversFrom_covers _ 0 hcov k (by omega) hk⟩
    · cases hget : get_chunk_ranges mc S with
      | nil => exact absurd hget hne
      | cons a t =>
        rw [hget] at hcov
        simp only [List.head?_cons, Option.map_some']
        exact congrArg some (coversFrom_cons.mp hcov).1
    · obtain ⟨r, hr⟩ := Option.isSome_iff_exists.mp (List.getLast?_isSome.mpr hne)
      rw [hr]
      simp only [Option.map_some']
      exact congrArg some (coversFrom_last _ 0 r hcov hr)

/-- Witness for C1 at the concrete input `S = 10`, `max_connections = 'auto'`:
the hypotheses hold there and the plan for a 10-byte resource satisfies every
partition property. -/
theorem chunk_ranges_partition_witness :
    ChunkPlanOk 10 (get_chunk_ranges none 10) :=
  (chunk_ranges_partition 10 none (fun n h => by cases h)).2 (by omega)

/-- C5: with automatic connection selection, the connection-count table maps
the six boundary sizes `1 MiB - 1`, `1 MiB`, `5 MiB`, `5 MiB + 1`, `400 MiB`
and `400 MiB + 1` bytes to `1`, `4`, `4`, `8`, `24` and `32` connections
respectively (downloader.py:85-96). -/
theorem connection_table_boundaries :
    calculate_connections none (1024 * 1024 - 1) = 1
    ∧ calculate_connections none (1024 * 1024) = 4
    ∧ calculate_connections none (5 * 1024 * 1024) = 4
    ∧ calculate_connections none (5 * 1024 * 1024 + 1) = 8
    ∧ calculate_connections none (400 * 1024 * 1024) = 24
    ∧ calculate_connections none (400 * 1024 * 1024 + 1) = 32 := by
  refine ⟨rfl, rfl, rfl, rfl, rfl, rfl⟩

/-! ## Request headers (`Downloader.__init__`, downloader.py:45-58)

Header maps are insertion-ordered association lists; `dictSet` reproduces
Python's `d[k] = v` (update in place when the key exists, append otherwise)
and `dictGet` reproduces `d.get(k)`. -/

def dictGet (d : List (String × String)) (k : String) : Option String :=
  (d.find? (fun p => decide (p.1 = k))).map Prod.snd

def dictSet (d : List (String × String)) (k v : String) : List (String × String) :=
  if d.any (fun p => decide (p.1 = k)) then
    d.map (fun p => if p.1 = k then (k, v) else p)
  else d ++ [(k, v)]

/-- Python's `str.title()` restricted to ASCII text: a letter is upper-cased
when the previous character is not a letter, lower-cased otherwise (the flag
tracks whether the previous character was cased). -/
def pyTitleGo : Bool → List Char → List Char
  | _, [] => []
  | prevCased, c :: rest =>
    if c.isAlpha then
      (if prevCased then c.toLower else c.toUpper) :: pyTitleGo true rest
    else c :: pyTitleGo false rest

/-- Python's `str.title()` (ASCII model). -/
def pyTitle (s : String) : String := String.mk (pyTitleGo false s.toList)

/-- The fixed base header set built by `Downloader.__init__`
(downloader.py:47-51). -/
def base_headers : List (String × String) :=
  [("Accept", "*/*"),
   ("Accept-Encoding", "identity"),
   ("User-Agent",
    "Mozilla/5.0 (Windows NT 10.0; Win64; x64) AppleWebKit/537.36 (KHTML, like Gecko) Chrome/131.0.0.0 Safari/537.36")]

/-- Header construction of `Downloader.__init__` (downloader.py:45-56): each
caller-supplied key is title-cased; it is stored unless its title-cased form
is one of the two `imutable_headers` entries, `Accept-Encoding` and `Range`.
An absent or empty caller map (Python `None` or `{}`, both falsy) is the empty
list. -/
def build_headers (custom : List (String × String)) : List (String × String) :=
  custom.foldl
    (fun d kv =>
      if pyTitle kv.1 = "Accept-Encoding" ∨ pyTitle kv.1 = "Range" then d
      else dictSet d (pyTitle kv.1) kv.2)
    base_headers

lemma find?_map_update (k v k' : String) (hne : k' ≠ k) :
    ∀ d : List (String × String),
      List.find? (fun p => decide (p.1 = k')) (d.map (fun p => if p.1 = k then (k, v) else p))
        = List.find? (fun p => decide (p.1 = k')) d := by
  intro d
  induction d with
  | nil => rfl
  | cons p rest ih =>
    simp only [List.map_cons]
    by_cases hp : p.1 = k
    · rw [if_pos hp]
      have h1 : (decide ((k, v).1 = k')) = false :=
        decide_eq_false (fun hkk => hne hkk.symm)
      have h2 : (decide (p.1 = k')) = false :=
        decide_eq_false (fun hpk => hne (by rw [← hpk, hp]))
      rw [List.find?_cons_of_neg _ (by simp [h1]), List.find?_cons_of_neg _ (by simp [h2])]
      exact ih
    · rw [if_neg hp]
      by_cases hp' : p.1 = k'
      · rw [List.find?_cons_of_pos _ (by simp [hp']), List.find?_cons_of_pos _ (by simp [hp'])]
      · rw [List.find?_cons_of_neg _ (by simp [hp']), List.find?_cons_of_neg _ (by simp [hp'])]
        exact ih

lemma dictGet_dictSet_ne (d : List (String × String)) (k v k' : String) (hne : k' ≠ k) :
    dictGet (dictSet d k v) k' = dictGet d k' := by
  unfold dictGet dictSet
  split
  · exact congrArg (Option.map Prod.snd) (find?_map_update k v k' hne d)
  · rw [List.find?_append]
    have h1 : List.find? (fun p => decide (p.1 = k')) [(k, v)] = none := by
      rw [List.find?_cons_of_neg _ (by simp; exact fun hkk => hne hkk.symm)]
      rfl
    rw [h1]
    simp

lemma build_headers_protected (custom : List (String × String)) :
    ∀ d : List (String × String),
      dictGet d "Accept-Encoding" = some "identity" → dictGet d "Range" = none →
      dictGet (custom.foldl
          (fun d kv =>
            if pyTitle kv.1 = "Accept-Encoding" ∨ pyTitle kv.1 = "Range" then d
            else dictSet d (pyTitle kv.1) kv.2) d) "Accept-Encoding" = some "identity"
      ∧ dictGet (custom.foldl
          (fun d kv =>
            if pyTitle kv.1 = "Accept-Encoding" ∨ pyTitle kv.1 = "Range" then d
            else dictSet d (pyTitle kv.1) kv.2) d) "Range" = none := by
  induction custom with
  | nil => intro d h1 h2; exact ⟨h1, h2⟩
  | cons kv rest ih =>
    intro d h1 h2
    simp only [List.foldl_cons]
    by_cases hskip : pyTitle kv.1 = "Accept-Encoding" ∨ pyTitle kv.1 = "Range"
    · rw [if_pos hskip]
      exact ih d h1 h2
    · rw [if_neg hskip]
      push_neg at hskip
      refine ih _ ?_ ?_
      · rw [dictGet_dictSet_ne d (pyTitle kv.1) kv.2 "Accept-Encoding"
          (fun h => hskip.1 h.symm)]
        exact h1
      · rw [dictGet_dictSet_ne d (pyTitle kv.1) kv.2 "Range" (fun h => hskip.2 h.symm)]
        exact h2

/-- C8 counterexample: the fixed base header set is NOT protected as a whole.
The caller map `{"accept": "text/html"}` title-cases to `Accept` — which is
not in `imutable_headers = ['Accept-Encoding', 'Range']` — and silently
replaces the base `Accept: */*` header.  So the claim that custom headers
"do not override the fixed base header set (Accept, Accept-Encoding,
User-Agent)" is false at this input. -/
theorem custom_header_overrides_accept :
    dictGet (build_headers [("accept", "text/html")]) "Accept" = some "text/html"
    ∧ dictGet base_headers "Accept" = some "*/*" := by
  constructor <;> rfl

/-- C8 (amended): only the two `imutable_headers` entries are protected from
caller-supplied headers: for every custom header map, after construction
`Accept-Encoding` still maps to `"identity"` and no `Range` key is present,
regardless of the letter-case of the caller's keys (every case variant
title-cases to the blocked spelling); the remaining base headers `Accept` and
`User-Agent` can be overridden. -/
theorem immutable_headers_preserved (custom : List (String × String)) :
    dictGet (build_headers custom) "Accept-Encoding" = some "identity"
    ∧ dictGet (build_headers custom) "Range" = none :=
  build_headers_protected custom base_headers rfl rfl

/-! ## Download driver (`Downloader.download`, downloader.py:204-270)

Modelled from the spec: the exception classes `RequestError` and
`DownloadError` live in `src/streamsnapper/exceptions.py`, which is not in
the tree; section 7 of the spec lists them as distinct error kinds
("`NetworkError`/`RequestError` (HEAD probe fails ...)", "`DownloadError`
(any chunk GET fails ...)"), so they are modelled as distinct constructors. -/
inductive DlExc where
  | requestError
  | downloadError
deriving DecidableEq

/-- The network as seen by one `download()` call.  `headResult` is the HEAD
probe: `.error` models a raised `httpx.HTTPError`, `.ok n` a response whose
`content-length` is `n`.  `getChunk` is a GET request keyed by its optional
`Range` header (the `(start, end)` pair, `none` when no `Range` header is
attached): `.error` models a transport error or a non-success status (which
`raise_for_status` turns into an `HTTPError`), `.ok` the response body. -/
structure Net where
  headResult : Except Unit Nat
  getChunk : Option (Nat × Nat) → Except Unit (List Nat)

/-- The `Range` header attached by `Downloader._download_chunk`
(downloader.py:188-191): present, as `bytes=start-end`, only when `end > 0`. -/
def range_header (r : Nat × Nat) : Option (Nat × Nat) :=
  if 0 < r.2 then some r else none

/-- `Downloader._get_file_info` (downloader.py:98-137), reduced to the datum
the claims depend on: an `httpx.HTTPError` from the HEAD request is re-raised
as `RequestError`; otherwise the content length is returned (content type and
filename only feed the progress display and filename derivation). -/
def get_file_info (net : Net) : Except DlExc Nat :=
  match net.headResult with
  | .error _ => .error .requestError
  | .ok n => .ok n

/-- `Downloader._download_chunk` (downloader.py:167-202): a GET carrying a
`Range` header exactly when the range's end byte is positive; any
`httpx.HTTPError` (transport failure or `raise_for_status` on a non-success
status) is re-raised as `DownloadError`. -/
def download_chunk (net : Net) (start endB : Nat) : Except DlExc (List Nat) :=
  match net.getChunk (range_header (start, endB)) with
  | .error _ => .error .downloadError
  | .ok chunk => .ok chunk

/-- The chunk-gathering loop of `Downloader.download` (downloader.py:260-264):
one `_download_chunk` per planned range, results collected in range order
(`[f.result() for f in futures]`); the first failing future re-raises its
exception.  The thread-pool execution is modelled sequentially — each chunk
request is an independent call of the network oracle, and the collected list
(or the first error) is the same either way. -/
def fetch_all (net : Net) : List (Nat × Nat) → Except DlExc (List (List Nat))
  | [] => .ok []
  | (s, e) :: rest =>
    match download_chunk net s e with
    | .error ex => .error ex
    | .ok c =>
      match fetch_all net rest with
      | .error ex => .error ex
      | .ok cs => .ok (c :: cs)

/-- The body of the `try` block of `Downloader.download`
(downloader.py:221-268): HEAD probe, then — depending on the total size —
either one unranged chunk or the planned ranged chunks, concatenated in range
order.  The returned list is the byte content written to the output file. -/
def download_inner (net : Net) (mc : Option Nat) : Except DlExc (List Nat) :=
  match get_file_info net with
  | .error e => .error e
  | .ok totalSize =>
    if totalSize = 0 then download_chunk net 0 0
    else
      match fetch_all net (get_chunk_ranges mc totalSize) with
      | .error e => .error e
      | .ok chunks => .ok chunks.flatten

/-- `Downloader.download` (downloader.py:204-270).  `fs` is the content at
the resolved output path before the call (`none` = no file).  The blanket
`except Exception as e: raise DownloadError(...)` (downloader.py:269-270)
turns every failure inside the `try` block — including the `RequestError`
raised by the HEAD probe — into a `DownloadError`; the output file is opened
and written only after every chunk has been collected, so on any failure the
file system is unchanged. -/
def download (net : Net) (mc : Option Nat) (fs : Option (List Nat)) :
    Except DlExc Unit × Option (List Nat) :=
  match download_inner net mc with
  | .error _ => (.error .downloadError, fs)
  | .ok content => (.ok (), some content)

lemma fetch_all_error_of_mem (net : Net) :
    ∀ l : List (Nat × Nat),
      (∃ r ∈ l, ∃ e, net.getChunk (range_header r) = .error e) →
      fetch_all net l = .error .downloadError := by
  intro l
  induction l with
  | nil => intro h; obtain ⟨r, hr, _⟩ := h; cases hr
  | cons a rest ih =>
    intro h
    obtain ⟨s, e⟩ := a
    cases hchunk : net.getChunk (range_header (s, e)) with
    | error ex =>
      show (match download_chunk net s e with
        | .error ex => .error ex
        | .ok c => _) = Except.error DlExc.downloadError
      unfold download_chunk
      rw [hchunk]
    | ok c =>
      obtain ⟨r, hr, e', he'⟩ := h
      rcases List.mem_cons.mp hr with hr | hr
      · subst hr
        rw [hchunk] at he'
        cases he'
      · show (match download_chunk net s e with
          | .error ex => .error ex
          | .ok c => match fetch_all net rest with
            | .error ex => .error ex
            | .ok cs => .ok (c :: cs)) = Except.error DlExc.downloadError
        unfold download_chunk
        rw [hchunk, ih ⟨r, hr, e', he'⟩]

lemma fetch_all_ok_mem (net : Net) :
    ∀ (l : List (Nat × Nat)) (cs : List (List Nat)),
      fetch_all net l = .ok cs →
      ∀ r ∈ l, ∃ c, net.getChunk (range_header r) = .ok c := by
  intro l
  induction l with
  | nil => intro cs _ r hr; cases hr
  | cons a rest ih =>
    intro cs hok r hr
    obtain ⟨s, e⟩ := a
    unfold fetch_all at hok
    cases hchunk : download_chunk net s e with
    | error ex => rw [hchunk] at hok; cases hok
    | ok c =>
      rw [hchunk] at hok
      cases hrest : fetch_all net rest with
      | error ex => rw [hrest] at hok; cases hok
      | ok cs' =>
        rcases List.mem_cons.mp hr with hr | hr
        · subst hr
          unfold download_chunk at hchunk
          cases hget : net.getChunk (range_header (s, e)) with
          | error ex2 => rw [hget] at hchunk; cases hchunk
          | ok c2 => exact ⟨c2, rfl⟩
        · exact ih cs' hrest r hr

lemma download_inner_pos (net : Net) (mc : Option Nat) (S : Nat)
    (hS : net.headResult = .ok S) (hpos : 0 < S) :
    download_inner net mc
      = match fetch_all net (get_chunk_ranges mc S) with
        | .error e => .error e
        | .ok chunks => .ok chunks.flatten := by
  have hinfo : get_file_info net = .ok S := by
    unfold get_file_info
    rw [hS]
  unfold download_inner
  split
  · next e heq => rw [hinfo] at heq; cases heq
  · next t heq =>
    rw [hinfo] at heq
    injection heq with h
    rw [← h]
    rw [if_neg (by omega : ¬ S = 0)]

/-- C2: for every download with total size `S > 0`, if any planned chunk's
GET request fails (transport error or non-success status), the whole
`download()` call raises `DownloadError` and the content at the resolved
output path is unchanged — no partial or complete file is written; and
conversely the output path changes only when the call succeeded, which
requires every planned chunk request to have returned successfully. -/
theorem chunk_failure_aborts_download (net : Net) (mc : Option Nat)
    (fs : Option (List Nat)) (S : Nat)
    (hS : net.headResult = .ok S) (hpos : 0 < S) :
    ((∃ r ∈ get_chunk_ranges mc S, ∃ e, net.getChunk (range_header r) = .error e) →
      download net mc fs = (.error .downloadError, fs))
    ∧ ((download net mc fs).2 ≠ fs →
      (download net mc fs).1 = .ok ()
      ∧ ∀ r ∈ get_chunk_ranges mc S, ∃ c, net.getChunk (range_header r) = .ok c) := by
  constructor
  · intro hfail
    have hfetch := fetch_all_error_of_mem net (get_chunk_ranges mc S) hfail
    have hinner : download_inner net mc = .error .downloadError := by
      rw [download_inner_pos net mc S hS hpos, hfetch]
    unfold download
    rw [hinner]
  · intro hchanged
    unfold download at hchanged ⊢
    cases hinner : download_inner net mc with
    | error e =>
      rw [hinner] at hchanged
      simp at hchanged
    | ok content =>
      refine ⟨rfl, ?_⟩
      rw [download_inner_pos net mc S hS hpos] at hinner
      cases hfetch : fetch_all net (get_chunk_ranges mc S) with
      | error e => rw [hfetch] at hinner; simp at hinner
      | ok chunks => exact fetch_all_ok_mem net _ chunks hfetch

/-- Concrete network oracle for the C2 witness: the HEAD probe reports 10
bytes, every chunk GET fails. -/
def wNetC2 : Net := { headResult := .ok 10, getChunk := fun _ => .error () }

/-- Witness for C2: with `max_connections = 1` and a 10-byte resource whose
single chunk GET fails, `download()` raises `DownloadError` and leaves the
(initially absent) output file absent. -/
theorem chunk_failure_aborts_download_witness :
    download wNetC2 (some 1) none = (.error .downloadError, none) :=
  (chunk_failure_aborts_download wNetC2 (some 1) none 10 rfl (by omega)).1
    ⟨(0, 9), by decide, (), rfl⟩

/-- Concrete network oracle for C9: the HEAD probe itself fails. -/
def wNetC9 : Net := { headResult := .error (), getChunk := fun _ => .ok [] }

/-- C9: evaluation at the failing input.  When the HEAD probe raises,
`_get_file_info` raises `RequestError`, but `download()`'s blanket
`except Exception as e: raise DownloadError(...)` (downloader.py:269-270)
re-raises it as `DownloadError` — the same exception type a failed chunk
transfer produces — so the caller cannot distinguish the two cases by
exception type, although `download()`'s own docstring (downloader.py:216-218)
promises `RequestError` for the file-info failure. -/
theorem head_probe_failure_not_distinguishable :
    download wNetC9 none none = (.error .downloadError, none)
    ∧ get_file_info wNetC9 = .error .requestError
    ∧ DlExc.downloadError ≠ DlExc.requestError := by
  refine ⟨rfl, rfl, by decide⟩

/-- C10: the plan for a 1-byte resource is exactly `[(0, 0)]` — the same
value as the `S = 0` sentinel plan — for the automatic connection count and
for every explicit count `N ≥ 1` (with `S = 1` the chunk size is
`ceil(1/N) = 1`, so the single range is `(0, min(0, 0)) = (0, 0)`); and
`_download_chunk` attaches a `Range` header exactly when the range's end byte
is greater than 0, so a range ending at byte 0 — the 1-byte resource's only
chunk, or the `S = 0` sentinel — is fetched by a plain GET with no `Range`
header. -/
theorem single_byte_plan_no_range_header :
    (∀ mc : Option Nat, (∀ n, mc = some n → 1 ≤ n) → get_chunk_ranges mc 1 = [(0, 0)])
    ∧ (∀ mc : Option Nat, get_chunk_ranges mc 0 = [(0, 0)])
    ∧ (∀ s : Nat, range_header (s, 0) = none)
    ∧ (∀ s e : Nat, 0 < e → range_header (s, e) = some (s, e)) := by
  refine ⟨?_, fun mc => rfl, fun s => rfl, fun s e he => if_pos he⟩
  intro mc hmc
  have hconn : 1 ≤ calculate_connections mc 1 := calculate_connections_pos 1 hmc
  have hcdiv : cdiv 1 (calculate_connections mc 1) = 1 := by
    unfold cdiv
    have h1 : 1 + calculate_connections mc 1 - 1 = calculate_connections mc 1 := by omega
    rw [h1]
    exact Nat.div_self (by omega)
  unfold get_chunk_ranges
  rw [if_neg (by omega), hcdiv]
  rfl

/-- Witness for C10 at the explicit connection count 3 (hypothesis `3 ≥ 1`
discharged concretely). -/
theorem single_byte_plan_no_range_header_witness :
    get_chunk_ranges (some 3) 1 = [(0, 0)] ∧ range_header (7, 0) = none :=
  ⟨single_byte_plan_no_range_header.1 (some 3) (fun n h => by cases h; omega),
   single_byte_plan_no_range_header.2.2.1 7⟩

/-! ## Metadata field resolver (`get_value`, src/src/streamsnapper/utils.py:63-124)

Modelling conventions:

* `data : K → Option V` models the dictionary through `dict.get`: `none`
  covers both an absent key and a key stored with value `None` — the two are
  indistinguishable to `get_value`, which only ever calls `data.get`.
* `fallbackKeys : List (Option K)` models the `fallback_keys` list, whose
  entries may themselves be `None` (skipped by the `if fallback_key is not
  None` guard); the empty list covers both `None` and `[]`, which are equally
  falsy in `if value is None and fallback_keys`.
* Converters are Python function objects; the loop compares them by identity
  (`converter == converters[-1]`), so they are modelled as identifiers
  interpreted by an environment `env : Nat → V → Except PyErr (Option V)`.
  `convertTo = none` models `convert_to=None`; `some ids` models a list of
  converters (a single callable is wrapped into a one-element list by the
  code, so only the list form needs modelling).  A converter may return any
  value (including `None`, hence `Option V`) or raise: `PyErr` distinguishes
  the `ValueError`/`TypeError` kinds named in the `except` clause from every
  other exception kind. -/
inductive PyErr where
  | valueError
  | typeError
  | otherError
deriving DecidableEq

/-- The fallback loop of `get_value` (utils.py:90-97): entered with
`value = None`, it tries each non-`None` fallback key in order and stops at
the first key whose stored value is not `None`. -/
def lookupFallbacks {K V : Type} (data : K → Option V) : List (Option K) → Option V
  | [] => none
  | none :: rest => lookupFallbacks data rest
  | some k :: rest =>
    match data k with
    | some v => some v
    | none => lookupFallbacks data rest

/-- The converter loop of `get_value` (utils.py:105-122).  `lastId` is
`converters[-1]` of the original list; a converter that raises a
`ValueError`/`TypeError` either returns the default (when it is the last
converter, compared by identity) or falls through to the next one; any other
exception propagates.  The `[]` case corresponds to the `return value` after
the loop, reached only when the converter list was empty. -/
def convLoop {V : Type} (env : Nat → V → Except PyErr (Option V)) (lastId : Nat)
    (v : V) (dflt : Option V) : List Nat → Except PyErr (Option V)
  | [] => .ok (some v)
  | c :: rest =>
    match env c v with
    | .ok out => .ok out
    | .error .valueError => if c = lastId then .ok dflt else convLoop env lastId v dflt rest
    | .error .typeError => if c = lastId then .ok dflt else convLoop env lastId v dflt rest
    | .error .otherError => .error .otherError

/-- `get_value` (utils.py:63-124).  The match scrutinee is the `value`
variable after the primary lookup and the optional fallback loop: the loop
runs exactly when `value is None and fallback_keys`, i.e. the primary lookup
gave `None` and the fallback list is non-empty (truthy).  A `None` final
value returns the default; otherwise the converters (if any) run. -/
def get_value {K V : Type} (data : K → Option V) (key : K)
    (fallbackKeys : List (Option K)) (convertTo : Option (List Nat))
    (env : Nat → V → Except PyErr (Option V)) (defaultTo : Option V) :
    Except PyErr (Option V) :=
  match (if (data key).isNone && !fallbackKeys.isEmpty
      then lookupFallbacks data fallbackKeys else data key) with
  | none => .ok defaultTo
  | some v =>
    match convertTo with
    | none => .ok (some v)
    | some convs => convLoop env ((convs.getLast?).getD 0) v defaultTo convs

/-- Concrete converter environment for the C3 counterexample: converter `0`
raises an exception that is neither a `ValueError` nor a `TypeError`
(e.g. Python's `AttributeError` or `KeyError`). -/
def envOther : Nat → Nat → Except PyErr (Option Nat) := fun _ _ => .error .otherError

/-- C3 counterexample: the resolver does NOT absorb every converter failure.
The `except (ValueError, TypeError)` clause (utils.py:114) catches only those
two kinds; with the key present and a converter raising any other exception,
`get_value` propagates the exception instead of returning the default — so
the claim "never raises" is false at this input. -/
theorem get_value_raises_on_other_error :
    get_value (fun k : Nat => if k = 0 then some 5 else none) 0 [] (some [0])
        envOther (some 9)
      = .error .otherError := by
  rfl

lemma convLoop_ok {V : Type} (env : Nat → V → Except PyErr (Option V))
    (henv : ∀ i v, env i v ≠ .error .otherError) (lastId : Nat) (v : V) (dflt : Option V) :
    ∀ convs : List Nat, ∃ out, convLoop env lastId v dflt convs = .ok out := by
  intro convs
  induction convs with
  | nil => exact ⟨some v, rfl⟩
  | cons c rest ih =>
    unfold convLoop
    cases henvc : env c v with
    | ok out => exact ⟨out, rfl⟩
    | error e =>
      cases e with
      | valueError =>
        by_cases hc : c = lastId
        · exact ⟨dflt, by rw [if_pos hc]⟩
        · obtain ⟨out, hout⟩ := ih
          exact ⟨out, by rw [if_neg hc]; exact hout⟩
      | typeError =>
        by_cases hc : c = lastId
        · exact ⟨dflt, by rw [if_pos hc]⟩
        · obtain ⟨out, hout⟩ := ih
          exact ⟨out, by rw [if_neg hc]; exact hout⟩
      | otherError => exact absurd henvc (henv c v)

lemma convLoop_all_fail {V : Type} (env : Nat → V → Except PyErr (Option V))
    (v : V) (dflt : Option V) (lastId : Nat) :
    ∀ convs : List Nat, convs ≠ [] → convs.getLast? = some lastId →
      (∀ c ∈ convs, env c v = .error .valueError ∨ env c v = .error .typeError) →
      convLoop env lastId v dflt convs = .ok dflt := by
  intro convs
  induction convs with
  | nil => intro h; exact absurd rfl h
  | cons c rest ih =>
    intro _ hlast hfail
    unfold convLoop
    cases rest with
    | nil =>
      simp only [List.getLast?_singleton, Option.some.injEq] at hlast
      rcases hfail c (List.mem_cons_self c []) with hf | hf <;>
        rw [hf, if_pos hlast]
    | cons c2 t =>
      rw [List.getLast?_cons_cons] at hlast
      have hrest := ih (by simp) hlast
        (fun x hx => hfail x (List.mem_cons_of_mem c hx))
      rcases hfail c (List.mem_cons_self c (c2 :: t)) with hf | hf <;>
        · rw [hf]
          by_cases hc : c = lastId
          · rw [if_pos hc]
          · rw [if_neg hc]
            exact hrest

/-- C3 (amended): provided every converter fails only with a `ValueError` or
`TypeError` — the kinds the `except` clause catches — the resolver never
raises: it always returns normally, and both a failed lookup (primary and all
fallbacks `None`) and a value on which every converter fails yield the
default value.  (A converter raising any other exception kind propagates out
of `get_value`; lookups themselves can never raise.) -/
theorem get_value_never_raises {K V : Type} (data : K → Option V) (key : K)
    (fallbackKeys : List (Option K)) (convertTo : Option (List Nat))
    (env : Nat → V → Except PyErr (Option V)) (defaultTo : Option V)
    (henv : ∀ i v, env i v ≠ .error .otherError) :
    (∃ out, get_value data key fallbackKeys convertTo env defaultTo = .ok out)
    ∧ (data key = none → lookupFallbacks data fallbackKeys = none →
        get_value data key fallbackKeys convertTo env defaultTo = .ok defaultTo)
    ∧ (∀ v convs, data key = some v → convertTo = some convs → convs ≠ [] →
        (∀ c ∈ convs, env c v = .error .valueError ∨ env c v = .error .typeError) →
        get_value data key fallbackKeys convertTo env defaultTo = .ok defaultTo) := by
  refine ⟨?_, ?_, ?_⟩
  · unfold get_value
    cases hv1 : (if (data key).isNone && !fallbackKeys.isEmpty then
        lookupFallbacks data fallbackKeys else data key) with
    | none => exact ⟨defaultTo, rfl⟩
    | some v =>
      cases convertTo with
      | none => exact ⟨some v, rfl⟩
      | some convs => exact convLoop_ok env henv _ v defaultTo convs
  · intro hkey hfb
    unfold get_value
    have hv1 : (if (data key).isNone && !fallbackKeys.isEmpty then
        lookupFallbacks data fallbackKeys else data key) = none := by
      split
      · exact hfb
      · exact hkey
    rw [hv1]
  · intro v convs hkey hconv hne hfail
    unfold get_value
    have hcond : ((data key).isNone && !fallbackKeys.isEmpty) = false := by
      rw [hkey]
      rfl
    have hv1 : (if (data key).isNone && !fallbackKeys.isEmpty then
        lookupFallbacks data fallbackKeys else data key) = some v := by
      rw [hcond, if_neg (by simp)]
      exact hkey
    rw [hv1, hconv]
    obtain ⟨lastId, hlast⟩ := Option.isSome_iff_exists.mp (List.getLast?_isSome.mpr hne)
    show convLoop env ((convs.getLast?).getD 0) v defaultTo convs = Except.ok defaultTo
    rw [hlast]
    simp only [Option.getD_some]
    exact convLoop_all_fail env v defaultTo lastId convs hne hlast hfail

/-- Witness for C3's amended theorem at a concrete instance: a converter
environment that only ever raises `ValueError` satisfies the hypothesis, and
`get_value` on an absent key returns normally. -/
theorem get_value_never_raises_witness :
    ∃ out, get_value (fun _ : Nat => (none : Option Nat)) 0 [] none
        (fun _ _ => .error .valueError) (some 7) = .ok out :=
  (get_value_never_raises (fun _ : Nat => (none : Option Nat)) 0 [] none
      (fun _ _ => .error .valueError) (some 7)
      (fun i v => by simp)).1

/-- Dictionary for the C4 counterexample: the primary key `"a"` is present
but maps to the empty string (a falsy, non-`None` value), the fallback key
`"b"` maps to `"x"`. -/
def dataC4 : String → Option String :=
  fun k => if k = "a" then some "" else if k = "b" then some "x" else none

/-- C4 counterexample: the resolver's fallback test is `value is None`
(utils.py:90), not emptiness.  With the primary key present but empty, the
claim says the fallbacks are consulted and the first non-empty fallback value
(`"x"`) is returned; the code returns the empty primary value and never
consults the fallbacks. -/
theorem fallback_not_tried_on_empty_value :
    get_value dataC4 "a" [some "b"] none (fun _ _ => .error .valueError) none
        = .ok (some "")
    ∧ get_value dataC4 "a" [some "b"] none (fun _ _ => .error .valueError) none
        ≠ .ok (some "x") := by
  constructor
  · rfl
  · intro h
    rw [show get_value dataC4 "a" [some "b"] none (fun _ _ => .error .valueError) none
        = .ok (some "") from rfl] at h
    simp at h

lemma lookupFallbacks_append_first {K V : Type} (data : K → Option V)
    (k : K) (v : V) (hv : data k = some v) :
    ∀ (pre rest : List (Option K)),
      (∀ x ∈ pre, ∀ k0, x = some k0 → data k0 = none) →
      lookupFallbacks data (pre ++ some k :: rest) = some v := by
  intro pre
  induction pre with
  | nil =>
    intro rest _
    simp only [List.nil_append]
    unfold lookupFallbacks
    rw [hv]
  | cons x t ih =>
    intro rest hpre
    cases x with
    | none =>
      simp only [List.cons_append]
      show lookupFallbacks data (t ++ some k :: rest) = some v
      exact ih rest (fun y hy => hpre y (List.mem_cons_of_mem none hy))
    | some k0 =>
      simp only [List.cons_append]
      have hk0 : data k0 = none := hpre (some k0) (List.mem_cons_self _ t) k0 rfl
      show (match data k0 with
        | some v => some v
        | none => lookupFallbacks data (t ++ some k :: rest)) = some v
      rw [hk0]
      exact ih rest (fun y hy => hpre y (List.mem_cons_of_mem (some k0) hy))

/-- C4 (amended): fallback keys are consulted exactly when the primary key's
stored value is `None` (absent, or stored as `None`); they are then tried in
order, skipping `None` fallback keys, and the first fallback key whose stored
value is not `None` wins — even when that value is empty — with every later
fallback key ignored: the result equals the result of resolving with that
single fallback key alone, and without converters the winning stored value is
returned as-is. -/
theorem fallback_first_non_none_wins {K V : Type} (data : K → Option V) (key : K)
    (pre rest : List (Option K)) (k : K) (v : V)
    (convertTo : Option (List Nat)) (env : Nat → V → Except PyErr (Option V))
    (defaultTo : Option V)
    (hkey : data key = none)
    (hpre : ∀ x ∈ pre, ∀ k0, x = some k0 → data k0 = none)
    (hv : data k = some v) :
    get_value data key (pre ++ some k :: rest) convertTo env defaultTo
      = get_value data key [some k] convertTo env defaultTo
    ∧ get_value data key (pre ++ some k :: rest) none env defaultTo = .ok (some v) := by
  have hlook : lookupFallbacks data (pre ++ some k :: rest) = some v :=
    lookupFallbacks_append_first data k v hv pre rest hpre
  have hlook1 : lookupFallbacks data [some k] = some v := by
    unfold lookupFallbacks
    rw [hv]
  have hcond : ((data key).isNone && !(pre ++ some k :: rest).isEmpty) = true := by
    rw [hkey]
    simp
  have hcond1 : ((data key).isNone && !([some k] : List (Option K)).isEmpty) = true := by
    rw [hkey]
    rfl
  have hsel : (if (data key).isNone && !(pre ++ some k :: rest).isEmpty then
      lookupFallbacks data (pre ++ some k :: rest) else data key) = some v := by
    rw [hcond, if_pos rfl]
    exact hlook
  have hsel1 : (if (data key).isNone && !([some k] : List (Option K)).isEmpty then
      lookupFallbacks data [some k] else data key) = some v := by
    rw [hcond1, if_pos rfl]
    exact hlook1
  constructor
  · unfold get_value
    rw [hsel, hsel1]
  · unfold get_value
    rw [hsel]

/-- Witness for C4's amended theorem: primary key `"z"` absent, first
fallback `"q"` absent, second fallback `"b"` stores `"x"`; the resolver
returns `"x"` and ignores everything after `"b"`. -/
theorem fallback_first_non_none_wins_witness :
    get_value dataC4 "z" ([some "q"] ++ some "b" :: [some "a"]) none
        (fun _ _ => .error .valueError) none
      = .ok (some "x") :=
  (fallback_first_non_none_wins dataC4 "z" [some "q"] [some "a"] "b" "x" none
      (fun _ _ => .error .valueError) none rfl
      (fun x hx k0 hk0 => by
        rcases List.mem_singleton.mp hx with h
        rw [h] at hk0
        cases hk0
        rfl)
      rfl).2

/-! ## Video stream ranker (`YouTube.analyze_video_streams`, core.py:277-447)

A raw yt-dlp stream dictionary, restricted to the fields the video ranker
reads.  Every field holds the result of the corresponding `get_value` call:
`none` models an absent field, a field stored as `None`, or a failed
`int`/`float` conversion.  Integer metadata is modelled as `Nat`, float
metadata as `ℚ`.  Beware that the calls `get_value(stream, "width", 0,
convert_to=int)` (and likewise for height/fps/tbr) pass `0` as the third
positional argument, which is `fallback_keys` — a falsy value with no effect
— and NOT `default_to`; a missing field therefore resolves to `None`, not
`0`. -/
structure RawVideoStream where
  vcodec : Option String
  format_id : Option Nat
  width : Option Nat
  height : Option Nat
  fps : Option ℚ
  tbr : Option ℚ
  format_note : Option String
  url : Option String
  filesize : Option Nat
  language : Option String
deriving DecidableEq

/-- The video `format_id_extension_map` (core.py:291-355; the commented-out
entry 616 excluded). -/
def video_format_map : List (Nat × String) :=
  [(702, "mp4"), (402, "mp4"), (571, "mp4"), (272, "webm"), (138, "mp4"),
   (701, "mp4"), (401, "mp4"), (337, "webm"), (315, "webm"), (313, "webm"),
   (305, "mp4"), (266, "mp4"), (700, "mp4"), (400, "mp4"), (336, "webm"),
   (308, "webm"), (271, "webm"), (304, "mp4"), (264, "mp4"), (699, "mp4"),
   (399, "mp4"), (721, "mp4"), (335, "webm"), (303, "webm"), (248, "webm"),
   (299, "mp4"), (137, "mp4"), (216, "mp4"), (170, "webm"), (698, "mp4"),
   (398, "mp4"), (334, "webm"), (302, "webm"), (612, "webm"), (247, "webm"),
   (298, "mp4"), (136, "mp4"), (169, "webm"), (697, "mp4"), (397, "mp4"),
   (333, "webm"), (244, "webm"), (135, "mp4"), (168, "webm"), (696, "mp4"),
   (396, "mp4"), (332, "webm"), (243, "webm"), (134, "mp4"), (167, "webm"),
   (695, "mp4"), (395, "mp4"), (331, "webm"), (242, "webm"), (133, "mp4"),
   (694, "mp4"), (394, "mp4"), (330, "webm"), (278, "webm"), (598, "webm"),
   (160, "mp4"), (597, "mp4")]

/-- The candidate filter (core.py:357-361): keep streams whose `vcodec` is
not the literal `"none"` (an absent `vcodec` resolves to `None`, which is
`!= "none"` and passes) and whose integer-converted `format_id` is a key of
the allow-list (`None in map` is `False`, so unparsable or absent ids are
dropped). -/
def videoFilter (streams : List RawVideoStream) : List RawVideoStream :=
  streams.filter (fun s =>
    decide (s.vcodec ≠ some "none")
    && (match s.format_id with
        | some i => (video_format_map.lookup i).isSome
        | none => false))

/-- `calculate_score` (core.py:363-382): `width * height * framerate *
bitrate`.  Because the `0` arguments of the `get_value` calls bind
`fallback_keys` rather than `default_to`, a missing field is `None`, and
Python's `None * _` raises `TypeError` — modelled as `.error`. -/
def scoreStream (s : RawVideoStream) : Except Unit ℚ :=
  match s.width, s.height, s.fps, s.tbr with
  | some w, some h, some f, some t => .ok ((w : ℚ) * h * f * t)
  | _, _, _, _ => .error ()

/-- CPython's `sorted(key=...)` precomputes the key of every element (in list
order) before sorting, raising if any key call raises. -/
def keyedBy {α : Type} (f : α → Except Unit ℚ) : List α → Except Unit (List (ℚ × α))
  | [] => .ok []
  | x :: xs =>
    match f x with
    | .error e => .error e
    | .ok k =>
      match keyedBy f xs with
      | .error e => .error e
      | .ok ks => .ok ((k, x) :: ks)

/-- Stable insertion into a descending-by-key list: the new element goes
after every element whose key is `≥` its own, so elements already in the list
keep priority on ties. -/
def insertDesc {α : Type} (x : ℚ × α) : List (ℚ × α) → List (ℚ × α)
  | [] => [x]
  | y :: ys => if y.1 < x.1 then x :: y :: ys else y :: insertDesc x ys

/-- Stable descending sort by precomputed key: inserting the elements left to
right reproduces the order of Python's stable `sorted(..., reverse=True)`
(ties keep original order). -/
def sortKeyedDesc {α : Type} (l : List (ℚ × α)) : List (ℚ × α) :=
  l.foldl (fun acc x => insertDesc x acc) []

/-- `sorted(streams, key=calculate_score, reverse=True)` (core.py:384). -/
def sortDescBy {α : Type} (f : α → Except Unit ℚ) (l : List α) : Except Unit (List α) :=
  match keyedBy f l with
  | .error e => .error e
  | .ok ks => .ok ((sortKeyedDesc ks).map Prod.snd)

/-- The normalized record built by the video `extract_stream_info`
(core.py:386-421).  `quality` duplicates `height` (core.py:419).  The
`unquote`/`strip_whitespace` converters applied to `url` are plain text
normalizations of the URL, irrelevant to selection, and are modelled as the
identity. -/
structure VideoStreamInfo where
  url : Option String
  codec : Option String
  codec_variant : Option String
  raw_codec : Option String
  extension : String
  width : Option Nat
  height : Option Nat
  framerate : Option ℚ
  bitrate : Option ℚ
  quality_note : Option String
  is_hdr : Bool
  size : Option Nat
  language : Option String
  youtube_format_id : Option Nat
  quality : Option Nat
deriving DecidableEq

/-- The video `extract_stream_info` (core.py:386-421): codec split on the
first `.`; extension looked up in the allow-list with default `"mp4"`
(`default_to` is passed by keyword here, so the default really applies);
`is_hdr` by case-insensitive substring test on the quality note. -/
def extract_stream_info (s : RawVideoStream) : VideoStreamInfo :=
  let codecParts : Option (String × Option String) :=
    match s.vcodec with
    | some c => if c = "" then none else some (pySplitDot1 c)
    | none => none
  { url := s.url
    codec := codecParts.map Prod.fst
    codec_variant := codecParts.bind Prod.snd
    raw_codec := s.vcodec
    extension :=
      match s.format_id with
      | some i => (video_format_map.lookup i).getD "mp4"
      | none => "mp4"
    width := s.width
    height := s.height
    framerate := s.fps
    bitrate := s.tbr
    quality_note := s.format_note
    is_hdr :=
      match s.format_note with
      | some n => containsSub "hdr".toList (pyLower n).toList
      | none => false
    size := s.filesize
    language := s.language
    youtube_format_id := s.format_id
    quality := s.height }

/-- `available_video_qualities` (core.py:429-431):
`list(dict.fromkeys([f"{q}p" for stream in streams if stream["quality"]]))` —
first-seen-order distinct quality tiers, skipping falsy (`None` or `0`)
qualities.  Since `n ↦ "{n}p"` is injective, the tier strings are represented
by the heights themselves. -/
def available_video_qualities (infos : List VideoStreamInfo) : List Nat :=
  firstSeenDedup []
    (infos.filterMap (fun s =>
      match s.quality with
      | some q => if q = 0 then none else some q
      | none => none))

/-- Python's `max(list)` over possibly-`None` elements: the first element is
the running maximum; comparing `None` with an int (either side) raises
`TypeError`, so the call succeeds only when the list is all-`some` or a
singleton `[None]`.  An empty list raises `ValueError`. -/
def pyMaxGo : Option Nat → List (Option Nat) → Except Unit (Option Nat)
  | acc, [] => .ok acc
  | acc, x :: xs =>
    match x, acc with
    | some a, some b => pyMaxGo (some (if b < a then a else b)) xs
    | _, _ => .error ()

def pyMaxOpt : List (Option Nat) → Except Unit (Option Nat)
  | [] => .error ()
  | x :: xs => pyMaxGo x xs

/-- The ranked, normalized candidate list: filter, score-sort (which raises
`TypeError` when a filtered candidate misses one of the four score fields),
then normalize (core.py:357-425). -/
def rankedVideoInfos (streams : List RawVideoStream) : Except Unit (List VideoStreamInfo) :=
  match sortDescBy scoreStream (videoFilter streams) with
  | .error e => .error e
  | .ok sorted => .ok (sorted.map extract_stream_info)

/-- The tail of `analyze_video_streams` after the ranked list exists
(core.py:423-447): when no candidate survived the filter,
`best_video_streams` is `None` and the comprehension over it for
`available_video_qualities` (core.py:429-431) raises `TypeError` — modelled
as `.error`.  Otherwise: `"all"` (`none`) leaves the list as is; a requested
tier present in `available_video_qualities` filters to that tier; an absent
tier filters to `max([stream["quality"] for stream in streams])`.
`best_video_stream` is `streams[0]` when the narrowed list is non-empty;
`none` models both Python `None` and the empty-dict fallback. -/
def narrowVideoStreams (infos : List VideoStreamInfo) (preferredQuality : Option Nat) :
    Except Unit (List VideoStreamInfo × Option VideoStreamInfo) :=
  if infos.isEmpty then .error ()
  else
    match preferredQuality with
    | none => .ok (infos, infos.head?)
    | some h =>
      if h ∈ available_video_qualities infos then
        .ok (infos.filter (fun s => decide (s.quality = some h)),
          (infos.filter (fun s => decide (s.quality = some h))).head?)
      else
        match pyMaxOpt (infos.map (fun s => s.quality)) with
        | .error e => .error e
        | .ok m =>
          .ok (infos.filter (fun s => decide (s.quality = m)),
            (infos.filter (fun s => decide (s.quality = m))).head?)

/-- `YouTube.analyze_video_streams` (core.py:277-447), returning
`(best_video_streams, best_video_stream)`.  `preferredQuality = none` models
the literal `"all"`; `some h` models the quality literal `"{h}p"` (on these
literals `strip().lower()` is the identity and
`int(literal.replace("p", "")) = h`). -/
def analyze_video_streams (streams : List RawVideoStream) (preferredQuality : Option Nat) :
    Except Unit (List VideoStreamInfo × Option VideoStreamInfo) :=
  match rankedVideoInfos streams with
  | .error e => .error e
  | .ok infos => narrowVideoStreams infos preferredQuality

/-- Score of a normalized candidate (the same product the ranker sorted by;
on candidates with all four fields present it coincides with
`scoreStream`). -/
def videoInfoScore (s : VideoStreamInfo) : ℚ :=
  ((s.width.getD 0 : Nat) : ℚ) * ((s.height.getD 0 : Nat) : ℚ)
    * (s.framerate.getD 0) * (s.bitrate.getD 0)

/-- The 1920x1080\@30fps\@5000kbps format-137 candidate of the end-to-end
scenario. -/
def vs137 : RawVideoStream :=
  { vcodec := some "avc1.640028", format_id := some 137, width := some 1920,
    height := some 1080, fps := some 30, tbr := some 5000,
    format_note := some "1080p", url := some "u137", filesize := some 1000000,
    language := some "en" }

/-- The 1280x720\@30fps\@2500kbps format-136 candidate of the end-to-end
scenario. -/
def vs136 : RawVideoStream :=
  { vcodec := some "avc1.4d401f", format_id := some 136, width := some 1280,
    height := some 720, fps := some 30, tbr := some 2500,
    format_note := some "720p", url := some "u136", filesize := some 500000,
    language := some "en" }

/-- An allow-listed VP9 1080p candidate with no `fps` field. -/
def vsNoFps : RawVideoStream :=
  { vcodec := some "vp9", format_id := some 303, width := some 1920,
    height := some 1080, fps := none, tbr := some 4000,
    format_note := some "1080p60", url := some "u303", filesize := none,
    language := none }

/-- C6 counterexample: the ranker does NOT narrow as claimed on every
non-empty filtered candidate list.  With `preferred_quality = "all"` the
claim says no narrowing occurs (the ranked candidates are returned), but on a
list containing an allow-listed candidate with no `fps` field the scoring
step raises `TypeError` — `get_value(stream, "fps", 0, convert_to=float)`
binds `0` to `fallback_keys`, so the missing field is `None` and
`width * height * None * bitrate` fails (core.py:377-384). -/
theorem video_ranker_raises_on_missing_fps :
    analyze_video_streams [vs137, vsNoFps] none = .error () := by
  rfl

lemma mem_insertDesc {α : Type} (x y : ℚ × α) :
    ∀ l : List (ℚ × α), y ∈ insertDesc x l ↔ y = x ∨ y ∈ l := by
  intro l
  induction l with
  | nil => simp [insertDesc]
  | cons z zs ih =>
    unfold insertDesc
    split
    · simp
    · rw [List.mem_cons, ih, List.mem_cons]
      tauto

lemma insertDesc_pairwise {α : Type} (x : ℚ × α) :
    ∀ l : List (ℚ × α), List.Pairwise (fun a b => b.1 ≤ a.1) l →
      List.Pairwise (fun a b => b.1 ≤ a.1) (insertDesc x l) := by
  intro l
  induction l with
  | nil => intro _; simp [insertDesc]
  | cons z zs ih =>
    intro h
    rw [List.pairwise_cons] at h
    unfold insertDesc
    split
    · next hlt =>
      refine List.pairwise_cons.mpr ⟨?_, List.pairwise_cons.mpr h⟩
      intro y hy
      rcases List.mem_cons.mp hy with hy | hy
      · subst hy; exact le_of_lt hlt
      · exact le_trans (h.1 y hy) (le_of_lt hlt)
    · next hge =>
      refine List.pairwise_cons.mpr ⟨?_, ih h.2⟩
      intro y hy
      rcases (mem_insertDesc x y zs).mp hy with hy | hy
      · subst hy; exact not_lt.mp hge
      · exact h.1 y hy

lemma length_insertDesc {α : Type} (x : ℚ × α) :
    ∀ l : List (ℚ × α), (insertDesc x l).length = l.length + 1 := by
  intro l
  induction l with
  | nil => rfl
  | cons z zs ih =>
    unfold insertDesc
    split
    · simp
    · simp only [List.length_cons, ih]

lemma sortKeyedDesc_facts {α : Type} :
    ∀ (l acc : List (ℚ × α)), List.Pairwise (fun a b => b.1 ≤ a.1) acc →
      List.Pairwise (fun a b => b.1 ≤ a.1) (l.foldl (fun acc x => insertDesc x acc) acc)
      ∧ (l.foldl (fun acc x => insertDesc x acc) acc).length = acc.length + l.length
      ∧ (∀ y, y ∈ l.foldl (fun acc x => insertDesc x acc) acc → y ∈ acc ∨ y ∈ l) := by
  intro l
  induction l with
  | nil =>
    intro acc hacc
    exact ⟨hacc, rfl, fun y hy => Or.inl hy⟩
  | cons x xs ih =>
    intro acc hacc
    obtain ⟨p1, p2, p3⟩ := ih (insertDesc x acc) (insertDesc_pairwise x acc hacc)
    refine ⟨p1, ?_, ?_⟩
    · simp only [List.foldl_cons, p2, length_insertDesc, List.length_cons]
      omega
    · intro y hy
      rw [List.foldl_cons] at hy
      rcases p3 y hy with hy | hy
      · rcases (mem_insertDesc x y acc).mp hy with hy | hy
        · exact Or.inr (by rw [hy]; exact List.mem_cons_self x xs)
        · exact Or.inl hy
      · exact Or.inr (List.mem_cons_of_mem x hy)

lemma keyedBy_ok_of_forall {α : Type} (f : α → Except Unit ℚ) :
    ∀ l : List α, (∀ x ∈ l, ∃ q, f x = .ok q) → ∃ ks, keyedBy f l = .ok ks := by
  intro l
  induction l with
  | nil => intro _; exact ⟨[], rfl⟩
  | cons x xs ih =>
    intro h
    obtain ⟨q, hq⟩ := h x (List.mem_cons_self x xs)
    obtain ⟨ks, hks⟩ := ih (fun y hy => h y (List.mem_cons_of_mem x hy))
    refine ⟨(q, x) :: ks, ?_⟩
    unfold keyedBy
    rw [hq, hks]

lemma keyedBy_length {α : Type} (f : α → Except Unit ℚ) :
    ∀ (l : List α) (ks : List (ℚ × α)), keyedBy f l = .ok ks → ks.length = l.length := by
  intro l
  induction l with
  | nil =>
    intro ks h
    unfold keyedBy at h
    injection h with h
    rw [← h]
    rfl
  | cons x xs ih =>
    intro ks h
    unfold keyedBy at h
    cases hq : f x with
    | error e => rw [hq] at h; cases h
    | ok q =>
      rw [hq] at h
      cases hks : keyedBy f xs with
      | error e => rw [hks] at h; cases h
      | ok ks' =>
        rw [hks] at h
        injection h with h
        rw [← h]
        simp only [List.length_cons, ih ks' hks]

lemma keyedBy_spec {α : Type} (f : α → Except Unit ℚ) :
    ∀ (l : List α) (ks : List (ℚ × α)), keyedBy f l = .ok ks →
      ∀ p ∈ ks, f p.2 = .ok p.1 ∧ p.2 ∈ l := by
  intro l
  induction l with
  | nil =>
    intro ks h p hp
    unfold keyedBy at h
    injection h with h
    rw [← h] at hp
    cases hp
  | cons x xs ih =>
    intro ks h p hp
    unfold keyedBy at h
    cases hq : f x with
    | error e => rw [hq] at h; cases h
    | ok q =>
      rw [hq] at h
      cases hks : keyedBy f xs with
      | error e => rw [hks] at h; cases h
      | ok ks' =>
        rw [hks] at h
        injection h with h
        rw [← h] at hp
        rcases List.mem_cons.mp hp with hp | hp
        · subst hp
          exact ⟨hq, List.mem_cons_self x xs⟩
        · obtain ⟨hf, hm⟩ := ih ks' hks p hp
          exact ⟨hf, List.mem_cons_of_mem x hm⟩

lemma scoreStream_ok_of_fields {s : RawVideoStream}
    (h1 : s.width ≠ none) (h2 : s.height ≠ none) (h3 : s.fps ≠ none) (h4 : s.tbr ≠ none) :
    ∃ q, scoreStream s = .ok q := by
  obtain ⟨w, hw⟩ := Option.ne_none_iff_exists'.mp h1
  obtain ⟨hv, hh⟩ := Option.ne_none_iff_exists'.mp h2
  obtain ⟨f, hf⟩ := Option.ne_none_iff_exists'.mp h3
  obtain ⟨t, ht⟩ := Option.ne_none_iff_exists'.mp h4
  exact ⟨(w : ℚ) * hv * f * t, by unfold scoreStream; rw [hw, hh, hf, ht]⟩

lemma scoreStream_ok_facts {s : RawVideoStream} {q : ℚ} (h : scoreStream s = .ok q) :
    videoInfoScore (extract_stream_info s) = q
    ∧ (extract_stream_info s).quality.isSome = true := by
  unfold scoreStream at h
  cases hw : s.width with
  | none => rw [hw] at h; simp at h
  | some w =>
    cases hh : s.height with
    | none => rw [hw, hh] at h; simp at h
    | some hv =>
      cases hf : s.fps with
      | none => rw [hw, hh, hf] at h; simp at h
      | some f =>
        cases ht : s.tbr with
        | none => rw [hw, hh, hf, ht] at h; simp at h
        | some t =>
          rw [hw, hh, hf, ht] at h
          injection h with h
          constructor
          · rw [← h]
            simp [videoInfoScore, extract_stream_info, hw, hh, hf, ht]
          · simp [extract_stream_info, hh]

lemma pyMaxGo_spec :
    ∀ (xs : List (Option Nat)) (b : Nat), (∀ x ∈ xs, x ≠ none) →
      ∃ m, pyMaxGo (some b) xs = .ok (some m) ∧ b ≤ m
        ∧ (∀ q, some q ∈ xs → q ≤ m) ∧ (m = b ∨ some m ∈ xs) := by
  intro xs
  induction xs with
  | nil =>
    intro b _
    exact ⟨b, rfl, le_refl b, fun q hq => absurd hq (by simp), Or.inl rfl⟩
  | cons x rest ih =>
    intro b hall
    obtain ⟨a, ha⟩ := Option.ne_none_iff_exists'.mp (hall x (List.mem_cons_self x rest))
    subst ha
    obtain ⟨m, hm, hb, hbound, hat⟩ :=
      ih (if b < a then a else b) (fun y hy => hall y (List.mem_cons_of_mem _ hy))
    refine ⟨m, ?_, ?_, ?_, ?_⟩
    · unfold pyMaxGo
      exact hm
    · by_cases hba : b < a
      · rw [if_pos hba] at hb; omega
      · rwa [if_neg hba] at hb
    · intro q hq
      rcases List.mem_cons.mp hq with hq | hq
      · injection hq with hq
        by_cases hba : b < a
        · rw [if_pos hba] at hb; omega
        · rw [if_neg hba] at hb; omega
      · exact hbound q hq
    · rcases hat with hat | hat
      · by_cases hba : b < a
        · rw [if_pos hba] at hat
          exact Or.inr (by rw [hat]; exact List.mem_cons_self _ rest)
        · rw [if_neg hba] at hat
          exact Or.inl hat
      · exact Or.inr (List.mem_cons_of_mem _ hat)

lemma pyMaxOpt_spec (l : List (Option Nat)) (hne : l ≠ []) (hall : ∀ x ∈ l, x ≠ none) :
    ∃ m, pyMaxOpt l = .ok (some m)
      ∧ (∀ q, some q ∈ l → q ≤ m) ∧ some m ∈ l := by
  cases l with
  | nil => exact absurd rfl hne
  | cons x rest =>
    obtain ⟨b, hb⟩ := Option.ne_none_iff_exists'.mp (hall x (List.mem_cons_self x rest))
    subst hb
    obtain ⟨m, hm, hbm, hbound, hat⟩ :=
      pyMaxGo_spec rest b (fun y hy => hall y (List.mem_cons_of_mem _ hy))
    refine ⟨m, hm, ?_, ?_⟩
    · intro q hq
      rcases List.mem_cons.mp hq with hq | hq
      · injection hq with hq; omega
      · exact hbound q hq
    · rcases hat with hat | hat
      · exact hat ▸ List.mem_cons_self _ rest
      · exact List.mem_cons_of_mem _ hat

lemma sortKeyedDesc_pair {α : Type} (A B : ℚ) (v1 v2 : α) (h : B < A) :
    sortKeyedDesc [(A, v1), (B, v2)] = [(A, v1), (B, v2)] := by
  show insertDesc (B, v2) [(A, v1)] = _
  unfold insertDesc
  rw [if_neg (not_lt.mpr (le_of_lt h))]
  rfl

lemma sortKeyedDesc_props {α : Type} (ks : List (ℚ × α)) :
    List.Pairwise (fun a b => b.1 ≤ a.1) (sortKeyedDesc ks)
    ∧ (sortKeyedDesc ks).length = ks.length
    ∧ (∀ y ∈ sortKeyedDesc ks, y ∈ ks) := by
  obtain ⟨p1, p2, p3⟩ := sortKeyedDesc_facts ks [] List.Pairwise.nil
  refine ⟨p1, ?_, fun y hy => ?_⟩
  · show (List.foldl (fun acc x => insertDesc x acc) [] ks).length = ks.length
    rw [p2]
    simp
  · rcases p3 y hy with h | h
    · cases h
    · exact h

lemma sortDescBy_eq_of_keyed {α : Type} (f : α → Except Unit ℚ) (l : List α)
    (ks : List (ℚ × α)) (h : keyedBy f l = .ok ks) :
    sortDescBy f l = .ok ((sortKeyedDesc ks).map Prod.snd) := by
  unfold sortDescBy
  rw [h]

lemma rankedVideoInfos_eq_of_sorted (streams : List RawVideoStream)
    (sorted : List RawVideoStream)
    (h : sortDescBy scoreStream (videoFilter streams) = .ok sorted) :
    rankedVideoInfos streams = .ok (sorted.map extract_stream_info) := by
  unfold rankedVideoInfos
  rw [h]

lemma analyze_video_eq_of_ranked (streams : List RawVideoStream) (pref : Option Nat)
    (infos : List VideoStreamInfo) (h : rankedVideoInfos streams = .ok infos) :
    analyze_video_streams streams pref = narrowVideoStreams infos pref := by
  unfold analyze_video_streams
  rw [h]

lemma narrowVideo_all (infos : List VideoStreamInfo) (hne : infos ≠ []) :
    narrowVideoStreams infos none = .ok (infos, infos.head?) := by
  cases infos with
  | nil => exact absurd rfl hne
  | cons i rest => rfl

lemma narrowVideo_present (infos : List VideoStreamInfo) (hne : infos ≠ [])
    (q : Nat) (hq : q ∈ available_video_qualities infos) :
    narrowVideoStreams infos (some q)
      = .ok (infos.filter (fun s => decide (s.quality = some q)),
          (infos.filter (fun s => decide (s.quality = some q))).head?) := by
  cases infos with
  | nil => exact absurd rfl hne
  | cons i rest =>
    show (if q ∈ available_video_qualities (i :: rest) then _ else _) = _
    rw [if_pos hq]

lemma narrowVideo_absent (infos : List VideoStreamInfo) (hne : infos ≠ [])
    (q : Nat) (hq : q ∉ available_video_qualities infos) (m : Nat)
    (hmax : pyMaxOpt (infos.map (fun s => s.quality)) = .ok (some m)) :
    narrowVideoStreams infos (some q)
      = .ok (infos.filter (fun s => decide (s.quality = some m)),
          (infos.filter (fun s => decide (s.quality = some m))).head?) := by
  cases infos with
  | nil => exact absurd rfl hne
  | cons i rest =>
    show (if q ∈ available_video_qualities (i :: rest) then _ else _) = _
    rw [if_neg hq]
    show (match pyMaxOpt ((i :: rest).map (fun s : VideoStreamInfo => s.quality)) with
      | Except.error e => Except.error e
      | Except.ok m =>
        Except.ok ((i :: rest).filter (fun s : VideoStreamInfo => decide (s.quality = m)),
          ((i :: rest).filter (fun s : VideoStreamInfo => decide (s.quality = m))).head?)) = _
    rw [hmax]

/-- C6 (amended): for every non-empty filtered video candidate list in which
every candidate carries numeric width, height, frame rate and bitrate (a
candidate missing one of these makes scoring raise `TypeError`, because the
`0` passed to `get_value` binds `fallback_keys`, not `default_to` — see the
counterexample), the ranker produces a ranked list `infos` sorted descending
by score, and: requesting a tier present in `availableQualities` narrows the
candidate list to exactly the candidates of that tier (the best-scored of
them, `infos`' first such entry, becoming the best stream); requesting an
absent tier narrows to the candidates of the single highest tier actually
available (the maximum of the candidates' heights, which is attained); and
requesting `"all"` performs no narrowing.  In particular, the 1920x1080
format-137 / 1280x720 format-136 descriptor with `preferred_quality="1080p"`
yields exactly one candidate — the format-137 one — with container extension
`"mp4"`. -/
theorem video_quality_narrowing (streams : List RawVideoStream) (pref : Option Nat)
    (hne : videoFilter streams ≠ [])
    (hcomp : ∀ s ∈ videoFilter streams,
      s.width ≠ none ∧ s.height ≠ none ∧ s.fps ≠ none ∧ s.tbr ≠ none) :
    (∃ infos : List VideoStreamInfo,
      rankedVideoInfos streams = .ok infos
      ∧ infos ≠ []
      ∧ List.Pairwise (fun a b => videoInfoScore b ≤ videoInfoScore a) infos
      ∧ (pref = none → analyze_video_streams streams pref = .ok (infos, infos.head?))
      ∧ (∀ q, pref = some q → q ∈ available_video_qualities infos →
          analyze_video_streams streams pref
            = .ok (infos.filter (fun s => decide (s.quality = some q)),
                (infos.filter (fun s => decide (s.quality = some q))).head?))
      ∧ (∀ q, pref = some q → q ∉ available_video_qualities infos →
          ∃ m, (∀ s ∈ infos, ∀ h, s.quality = some h → h ≤ m)
            ∧ (∃ s ∈ infos, s.quality = some m)
            ∧ analyze_video_streams streams pref
              = .ok (infos.filter (fun s => decide (s.quality = some m)),
                  (infos.filter (fun s => decide (s.quality = some m))).head?)))
    ∧ (∃ info, analyze_video_streams [vs137, vs136] (some 1080) = .ok ([info], some info)
        ∧ info.youtube_format_id = some 137 ∧ info.extension = "mp4") := by
  constructor
  · obtain ⟨ks, hks⟩ := keyedBy_ok_of_forall scoreStream (videoFilter streams)
      (fun x hx => scoreStream_ok_of_fields (hcomp x hx).1 (hcomp x hx).2.1
        (hcomp x hx).2.2.1 (hcomp x hx).2.2.2)
    have hranked : rankedVideoInfos streams
        = .ok (((sortKeyedDesc ks).map Prod.snd).map extract_stream_info) :=
      rankedVideoInfos_eq_of_sorted streams _ (sortDescBy_eq_of_keyed _ _ _ hks)
    obtain ⟨hsorted, hlen, hmem⟩ := sortKeyedDesc_props ks
    have hmemks : ∀ p ∈ sortKeyedDesc ks, scoreStream p.2 = .ok p.1 := by
      intro p hp
      exact (keyedBy_spec scoreStream (videoFilter streams) ks hks p (hmem p hp)).1
    have hmemfacts : ∀ s ∈ ((sortKeyedDesc ks).map Prod.snd).map extract_stream_info,
        ∃ p ∈ sortKeyedDesc ks, s = extract_stream_info p.2 := by
      intro s hs
      rw [List.map_map] at hs
      obtain ⟨p, hp, hps⟩ := List.mem_map.mp hs
      exact ⟨p, hp, hps.symm⟩
    have hqual : ∀ s ∈ ((sortKeyedDesc ks).map Prod.snd).map extract_stream_info,
        s.quality ≠ none := by
      intro s hs
      obtain ⟨p, hp, hps⟩ := hmemfacts s hs
      have := (scoreStream_ok_facts (hmemks p hp)).2
      rw [hps]
      exact Option.isSome_iff_ne_none.mp this
    have hlen2 : (((sortKeyedDesc ks).map Prod.snd).map extract_stream_info).length
        = (videoFilter streams).length := by
      simp only [List.length_map]
      rw [hlen]
      exact keyedBy_length scoreStream (videoFilter streams) ks hks
    have hnei : ((sortKeyedDesc ks).map Prod.snd).map extract_stream_info ≠ [] := by
      intro h
      apply hne
      rw [← List.length_eq_zero, ← hlen2, h]
      rfl
    refine ⟨((sortKeyedDesc ks).map Prod.snd).map extract_stream_info,
      hranked, hnei, ?_, ?_, ?_, ?_⟩
    · rw [List.map_map, List.pairwise_map]
      refine List.Pairwise.imp_of_mem ?_ hsorted
      intro p r hp hr hle
      have h1 := (scoreStream_ok_facts (hmemks p hp)).1
      have h2 := (scoreStream_ok_facts (hmemks r hr)).1
      simp only [Function.comp]
      rw [h1, h2]
      exact hle
    · intro hp
      subst hp
      rw [analyze_video_eq_of_ranked streams none _ hranked]
      exact narrowVideo_all _ hnei
    · intro q hp hq
      subst hp
      rw [analyze_video_eq_of_ranked streams (some q) _ hranked]
      exact narrowVideo_present _ hnei q hq
    · intro q hp hq
      subst hp
      have hmapne : (((sortKeyedDesc ks).map Prod.snd).map extract_stream_info).map
          (fun s => s.quality) ≠ [] := by
        intro h
        exact hnei (List.map_eq_nil_iff.mp h)
      have hall : ∀ x ∈ (((sortKeyedDesc ks).map Prod.snd).map extract_stream_info).map
          (fun s => s.quality), x ≠ none := by
        intro x hx
        obtain ⟨s, hs, hsx⟩ := List.mem_map.mp hx
        rw [← hsx]
        exact hqual s hs
      obtain ⟨m, hmax, hbound, hat⟩ := pyMaxOpt_spec _ hmapne hall
      refine ⟨m, ?_, ?_, ?_⟩
      · intro s hs h hsh
        exact hbound h (List.mem_map.mpr ⟨s, hs, by rw [hsh]⟩)
      · obtain ⟨s, hs, hsm⟩ := List.mem_map.mp hat
        exact ⟨s, hs, hsm⟩
      · rw [analyze_video_eq_of_ranked streams (some q) _ hranked]
        exact narrowVideo_absent _ hnei q hq m hmax
  · refine ⟨extract_stream_info vs137, ?_, rfl, rfl⟩
    have hkk : keyedBy scoreStream (videoFilter [vs137, vs136])
        = .ok [(((1920 : Nat) : ℚ) * ((1080 : Nat) : ℚ) * 30 * 5000, vs137),
               (((1280 : Nat) : ℚ) * ((720 : Nat) : ℚ) * 30 * 2500, vs136)] := rfl
    have hlt : (((1280 : Nat) : ℚ) * ((720 : Nat) : ℚ) * 30 * 2500)
        < (((1920 : Nat) : ℚ) * ((1080 : Nat) : ℚ) * 30 * 5000) := by norm_num
    have hranked : rankedVideoInfos [vs137, vs136]
        = .ok [extract_stream_info vs137, extract_stream_info vs136] := by
      have hsort := sortDescBy_eq_of_keyed scoreStream (videoFilter [vs137, vs136]) _ hkk
      rw [sortKeyedDesc_pair _ _ _ _ hlt] at hsort
      exact rankedVideoInfos_eq_of_sorted _ _ hsort
    rw [analyze_video_eq_of_ranked [vs137, vs136] (some 1080) _ hranked]
    rfl

/-- Witness for C6's amended theorem at the concrete two-candidate scenario
descriptor (both hypotheses discharged by computation). -/
theorem video_quality_narrowing_witness :
    ∃ info, analyze_video_streams [vs137, vs136] (some 1080) = .ok ([info], some info)
      ∧ info.youtube_format_id = some 137 ∧ info.extension = "mp4" :=
  (video_quality_narrowing [vs137, vs136] (some 1080) (by decide)
    (by decide)).2

/-! ## Audio stream ranker (`YouTube.analyze_audio_streams`, core.py:449-574)

A raw yt-dlp stream dictionary restricted to the fields the audio ranker
reads; conventions as for `RawVideoStream`.  `format_id` is kept as the raw
string here because the filter works on
`get_value(stream, "format_id", "").split("-")[0]` — and note that the `""`
argument binds `fallback_keys` (falsy, no effect), not `default_to`, so a
missing `format_id` resolves to `None` and `None.split` raises
`AttributeError`. -/
structure RawAudioStream where
  acodec : Option String
  format_id : Option String
  abr : Option ℚ
  asr : Option Nat
  format_note : Option String
  url : Option String
  filesize : Option Nat
  audio_channels : Option Nat
  language : Option String
deriving DecidableEq

/-- The audio `format_id_extension_map` (core.py:460-478), keyed by the
format-id string. -/
def audio_format_map : List (String × String) :=
  [("773", "mp4"), ("338", "webm"), ("380", "mp4"), ("328", "mp4"),
   ("325", "mp4"), ("258", "mp4"), ("327", "mp4"), ("141", "mp4"),
   ("774", "webm"), ("256", "mp4"), ("251", "webm"), ("140", "mp4"),
   ("250", "webm"), ("249", "webm"), ("139", "mp4"), ("600", "webm"),
   ("599", "mp4")]

/-- `s.split("-")[0]`: the part before the first dash (locale-variant ids
such as `"251-1"` strip to `"251"`). -/
def splitDashHead (s : String) : String :=
  String.mk (((pySplitChar '-' s.toList).head?).getD [])

/-- The audio candidate filter (core.py:480-485): keep streams whose `acodec`
is not `"none"` and whose dash-stripped `format_id` is a key of the audio
allow-list.  Python's `and` short-circuits, so a stream whose `acodec` IS
`"none"` is skipped without touching `format_id`; otherwise a missing
`format_id` makes `None.split("-")` raise `AttributeError` (see the structure
docstring) — modelled as `.error`. -/
def audioFilter : List RawAudioStream → Except Unit (List RawAudioStream)
  | [] => .ok []
  | s :: rest =>
    if s.acodec = some "none" then audioFilter rest
    else
      match s.format_id with
      | none => .error ()
      | some fid =>
        match audioFilter rest with
        | .error e => .error e
        | .ok rest' =>
          if (audio_format_map.lookup (splitDashHead fid)).isSome then .ok (s :: rest')
          else .ok rest'

/-- The audio `calculate_score` (core.py:487-506):
`bitrate * 0.1 + sample_rate / 1000` (exact rational arithmetic stands in for
the float arithmetic; no verified property depends on rounding).  As in the
video ranker, the `0` third arguments of the `get_value` calls bind
`fallback_keys`, so a missing `abr` or `asr` is `None` and the arithmetic
raises `TypeError` — modelled as `.error`. -/
def scoreAudio (s : RawAudioStream) : Except Unit ℚ :=
  match s.abr, s.asr with
  | some b, some r => .ok (b * (1 / 10 : ℚ) + (r : ℚ) / 1000)
  | _, _ => .error ()

/-- The normalized record built by the audio `extract_stream_info`
(core.py:510-544). -/
structure AudioStreamInfo where
  url : Option String
  codec : Option String
  codec_variant : Option String
  raw_codec : Option String
  extension : Option String
  bitrate : Option ℚ
  quality_note : Option String
  is_original_audio : Option Bool
  size : Option Nat
  samplerate : Option Nat
  channels : Option Nat
  language : Option String
  youtube_format_id : Option Nat
deriving DecidableEq

/-- The audio `extract_stream_info` (core.py:510-544).
`youtube_format_id = int(str(format_id).split("-")[0])` is modelled totally
with `toNat?`: after the filter the dash-stripped id is a (decimal) key of
the allow-list, so the parse always succeeds where the code runs it (`int()`
would raise on anything else, which is unreachable).  For the extension,
`get_value(format_id_extension_map, str(youtube_format_id), "mp3")` passes
`"mp3"` as `fallback_keys` — a truthy string whose characters are then tried
as keys and found absent — so a failed lookup yields `None`, NOT `"mp3"`
(also unreachable after the filter); hence `extension : Option String`.
`is_original_audio` is `"(default)" in note or note.islower()` when a quality
note exists, `None` otherwise. -/
def extract_audio_stream_info (s : RawAudioStream) : AudioStreamInfo :=
  let codecParts : Option (String × Option String) :=
    match s.acodec with
    | some c => if c = "" then none else some (pySplitDot1 c)
    | none => none
  let fid : Option Nat := s.format_id.bind (fun f => pyParseNat (splitDashHead f))
  { url := s.url
    codec := codecParts.map Prod.fst
    codec_variant := codecParts.bind Prod.snd
    raw_codec := s.acodec
    extension := fid.bind (fun i => audio_format_map.lookup (toString i))
    bitrate := s.abr
    quality_note := s.format_note
    is_original_audio :=
      s.format_note.map (fun n => containsSub "(default)".toList n.toList || pyIsLower n)
    size := s.filesize
    samplerate := s.asr
    channels := s.audio_channels
    language := s.language
    youtube_format_id := fid }

/-- `available_audio_languages` (core.py:552-554): first-seen-order distinct
lower-cased language tags, skipping falsy (`None` or empty) tags. -/
def available_audio_languages (infos : List AudioStreamInfo) : List String :=
  firstSeenDedup []
    (infos.filterMap (fun s =>
      match s.language with
      | some l => if l = "" then none else some (pyLower l)
      | none => none))

/-- The `preferred_language` parameter after `strip().lower()` normalization:
`all`, `source` and `localLang` model the three literals; `lang code` models
an explicit (already lower-cased) language code. -/
inductive AudioPref where
  | all
  | source
  | localLang
  | lang (code : String)
deriving DecidableEq

/-- The tail of `analyze_audio_streams` after the ranked list exists
(core.py:546-574).  When no candidate survived the filter,
`best_audio_streams` is `None` and the comprehension over it for
`available_audio_languages` raises `TypeError` (`.error`).  `"local"` narrows
to the system language when it occurs among the lower-cased candidate
languages and otherwise falls through to the `"source"` filter
(`preferred_language = "source"`, core.py:565); `"source"` keeps the
candidates whose `is_original_audio` is truthy; an explicit code keeps exact
(case-sensitive) matches; `"all"` does not narrow. -/
def narrowAudioStreams (infos : List AudioStreamInfo) (sysLang : String)
    (pref : AudioPref) : Except Unit (List AudioStreamInfo × Option AudioStreamInfo) :=
  if infos.isEmpty then .error ()
  else
    match pref with
    | .all => .ok (infos, infos.head?)
    | .source =>
      .ok (infos.filter (fun s => decide (s.is_original_audio = some true)),
        (infos.filter (fun s => decide (s.is_original_audio = some true))).head?)
    | .localLang =>
      if sysLang ∈ available_audio_languages infos then
        .ok (infos.filter (fun s => decide (s.language = some sysLang)),
          (infos.filter (fun s => decide (s.language = some sysLang))).head?)
      else
        .ok (infos.filter (fun s => decide (s.is_original_audio = some true)),
          (infos.filter (fun s => decide (s.is_original_audio = some true))).head?)
    | .lang code =>
      .ok (infos.filter (fun s => decide (s.language = some code)),
        (infos.filter (fun s => decide (s.language = some code))).head?)

/-- The ranked, normalized audio candidate list (filter, score-sort,
normalize; core.py:480-548). -/
def rankedAudioInfos (streams : List RawAudioStream) : Except Unit (List AudioStreamInfo) :=
  match audioFilter streams with
  | .error e => .error e
  | .ok fl =>
    match sortDescBy scoreAudio fl with
    | .error e => .error e
    | .ok sorted => .ok (sorted.map extract_audio_stream_info)

/-- `YouTube.analyze_audio_streams` (core.py:449-574), returning
`(best_audio_streams, best_audio_stream)`.  `sysLang` is
`self.system_language_prefix`, detected once at construction. -/
def analyze_audio_streams (streams : List RawAudioStream) (sysLang : String)
    (pref : AudioPref) : Except Unit (List AudioStreamInfo × Option AudioStreamInfo) :=
  match rankedAudioInfos streams with
  | .error e => .error e
  | .ok infos => narrowAudioStreams infos sysLang pref

lemma analyze_audio_eq_of_ranked (streams : List RawAudioStream) (sysLang : String)
    (pref : AudioPref) (infos : List AudioStreamInfo)
    (h : rankedAudioInfos streams = .ok infos) :
    analyze_audio_streams streams sysLang pref = narrowAudioStreams infos sysLang pref := by
  unfold analyze_audio_streams
  rw [h]

lemma narrowAudio_source (infos : List AudioStreamInfo) (sysLang : String)
    (hne : infos ≠ []) :
    narrowAudioStreams infos sysLang .source
      = .ok (infos.filter (fun s => decide (s.is_original_audio = some true)),
          (infos.filter (fun s => decide (s.is_original_audio = some true))).head?) := by
  cases infos with
  | nil => exact absurd rfl hne
  | cons i rest => rfl

lemma narrowAudio_local_eq_source (infos : List AudioStreamInfo) (sysLang : String)
    (hno : sysLang ∉ available_audio_languages infos) :
    narrowAudioStreams infos sysLang .localLang = narrowAudioStreams infos sysLang .source := by
  cases infos with
  | nil => rfl
  | cons i rest =>
    show (if sysLang ∈ available_audio_languages (i :: rest) then _ else _) = _
    rw [if_neg hno]
    rfl

/-- C7: (1) every ranked audio candidate flagged `isOriginalAudio = true` is
kept by the `"source"` language policy — it is a member of the selected
stream list; and (2) when the system language does not occur among the
candidates' (lower-cased) languages, the `"local"` policy falls back to the
`"source"` policy and produces exactly the same selected stream list. -/
theorem audio_source_policy_kept_and_local_fallback
    (streams : List RawAudioStream) (sysLang : String)
    (infos : List AudioStreamInfo) (hranked : rankedAudioInfos streams = .ok infos) :
    (∀ s ∈ infos, s.is_original_audio = some true →
      ∃ out best, analyze_audio_streams streams sysLang .source = .ok (out, best)
        ∧ s ∈ out)
    ∧ (sysLang ∉ available_audio_languages infos →
      analyze_audio_streams streams sysLang .localLang
        = analyze_audio_streams streams sysLang .source) := by
  constructor
  · intro s hs hflag
    have hne : infos ≠ [] := by
      intro h
      rw [h] at hs
      cases hs
    refine ⟨infos.filter (fun s => decide (s.is_original_audio = some true)),
      (infos.filter (fun s => decide (s.is_original_audio = some true))).head?, ?_, ?_⟩
    · rw [analyze_audio_eq_of_ranked streams sysLang .source infos hranked]
      exact narrowAudio_source infos sysLang hne
    · refine List.mem_filter.mpr ⟨hs, ?_⟩
      rw [hflag]
      rfl
  · intro hno
    rw [analyze_audio_eq_of_ranked streams sysLang .localLang infos hranked,
      analyze_audio_eq_of_ranked streams sysLang .source infos hranked]
    exact narrowAudio_local_eq_source infos sysLang hno

/-- Concrete original-audio stream for the C7 witness: Opus format 251 with a
`"(default)"`-marked quality note. -/
def wAudio : RawAudioStream :=
  { acodec := some "opus", format_id := some "251", abr := some 128,
    asr := some 48000, format_note := some "medium (default)", url := some "ua",
    filesize := some 3000000, audio_channels := some 2, language := some "en" }

/-- Witness for C7 at a concrete one-candidate descriptor whose candidate is
flagged as original audio, with a system language (`"zz"`) matching no
candidate: the `"source"` policy keeps the flagged candidate, all hypotheses
discharged by computation. -/
theorem audio_source_policy_kept_witness :
    ∃ out best, analyze_audio_streams [wAudio] "zz" .source = .ok (out, best)
      ∧ extract_audio_stream_info wAudio ∈ out :=
  (audio_source_policy_kept_and_local_fallback [wAudio] "zz"
      [extract_audio_stream_info wAudio] rfl).1
    (extract_audio_stream_info wAudio) (List.mem_singleton.mpr rfl) rfl
